import Mathlib

/-!
Verification of the GitHub aggregation-and-caching layer of build.webmaker.org.

The development shallowly embeds the two source files, src/server/models/github.js
and src/server.js, as executable Lean definitions:

* JavaScript JSON values are modelled by the inductive `Json`; property access
  (`data.length`, `data.message`, `user.login`, ...) is modelled by `getLength`
  and `getField`, which return either a thrown `JsError` (property access on
  `null` throws a TypeError in JavaScript) or a `JsProp` (a value or
  `undefined`); JavaScript truthiness is `truthy`.
* Asynchronous callback code is modelled by explicit outcome values: a single
  request callback run finishes `thrown` (an exception escaped the callback and
  crashed the process), `pending` (the callback was never invoked), or with an
  error-first callback invocation.
* The upstream network is a function from request URL to response; `JSON.parse`
  of a response body is modelled by handing the fetcher an `Option Json`
  (`none` for a body that is not valid JSON, which makes `JSON.parse` throw).
* Side effects that the proofs need to count (HTTP requests, cache reads and
  writes) are returned as an explicit `Event` trace.
-/

/-- JavaScript JSON values, as produced by `JSON.parse`. -/
inductive Json where
  | null
  | bool (b : Bool)
  | num (n : Int)
  | str (s : String)
  | arr (elems : List Json)
  | obj (fields : List (String × Json))

/-- The result of a JavaScript property access: a value or `undefined`. -/
inductive JsProp where
  | undefined
  | val (j : Json)

/-- A thrown JavaScript exception. `typeError` models a TypeError (property
access on `null` or `undefined`), `parseError` a SyntaxError from
`JSON.parse`. -/
inductive JsError where
  | typeError
  | parseError
deriving DecidableEq, Repr

/-- JavaScript truthiness of a property-access result: `undefined`, `null`,
`false`, `0` and the empty string are falsy, everything else (including empty
arrays and objects) is truthy. -/
def truthy : JsProp → Bool
  | .undefined => false
  | .val .null => false
  | .val (.bool b) => b
  | .val (.num n) => decide (n ≠ 0)
  | .val (.str s) => decide (s ≠ "")
  | .val (.arr _) => true
  | .val (.obj _) => true

/-- JavaScript property access `data.field` for a generic field name: throws a
TypeError on `null`, looks the field up on objects, and yields `undefined` on
every other value (primitives and arrays carry no such own property). -/
def getField (data : Json) (field : String) : Except JsError JsProp :=
  match data with
  | .null => .error .typeError
  | .obj fs =>
    match fs.find? (fun f => f.1 = field) with
    | some f => .ok (.val f.2)
    | none => .ok .undefined
  | _ => .ok .undefined

/-- JavaScript property access `data.length`: throws on `null`; arrays and
strings have a numeric `length`; objects have one only if they carry a
`length` field; other primitives yield `undefined`. -/
def getLength (data : Json) : Except JsError JsProp :=
  match data with
  | .null => .error .typeError
  | .arr xs => .ok (.val (.num xs.length))
  | .str s => .ok (.val (.num s.length))
  | .obj fs =>
    match fs.find? (fun f => f.1 = "length") with
    | some f => .ok (.val f.2)
    | none => .ok .undefined
  | _ => .ok .undefined

/-- `collection.concat(data)` in JavaScript: appends the elements when `data`
is an array, and appends `data` itself as a single element otherwise. -/
def jsConcatElems : Json → List Json
  | .arr xs => xs
  | j => [j]

/-- JavaScript strict equality `===` as used by `Array.prototype.indexOf`.
Primitive values compare by value. Arrays and objects compare by reference;
every record considered here is freshly produced by `JSON.parse`, so two
distinct composite values are never identical and the comparison is `false`. -/
def jsStrictEq : JsProp → JsProp → Bool
  | .undefined, .undefined => true
  | .val .null, .val .null => true
  | .val (.bool a), .val (.bool b) => a == b
  | .val (.num a), .val (.num b) => a == b
  | .val (.str a), .val (.str b) => a == b
  | _, _ => false

/-- Observable side effects of the embedded operations, in order. -/
inductive Event where
  | cacheGet (url : String)
  | cacheSet (url : String)
  | httpGet (url : String)

/-- One page response of the upstream API as seen by the `request` callback in
`Github.prototype.githubRequest`: either a transport error (in which case the
delivered body is `undefined`, so `JSON.parse(body)` throws), or a body whose
`JSON.parse` result is `some data` (or `none` when the body is not valid
JSON, making `JSON.parse` throw). -/
inductive PageResult where
  | transport (e : Json)
  | body (parsed : Option Json)

/-- How one run of `githubRequest` ends: the callback is invoked with a lone
error argument (`callback(data)`), invoked as `callback(null, v)`, never
invoked at all (`pending`), or an exception escapes (`thrown`). -/
inductive FetchOutcome where
  | thrown
  | pending
  | callbackErr (e : Json)
  | callbackOk (v : Json)

/-- The inner `fetch` loop of `Github.prototype.githubRequest`
(src/server/models/github.js lines 99-122), translated clause by clause:

* request the page URL, then `JSON.parse(body)` — a transport error leaves
  `body` undefined and a malformed body fails to parse, so both throw;
* `if (data.length)` — append via `collection.concat(data)` and fetch the next
  page;
* `else if (collection.length)` — done: `callback(error, collection)`;
* `else if (data.message)` — an error payload: `callback(data)`;
* `else` — non-array data: `callback(error, data)`.

The JavaScript recursion has no bound, so the embedding takes a fuel
parameter; running out of fuel yields `pending` (the loop is still going).
The second component is the trace of page requests issued. -/
def fetchPages (upstream : String → PageResult) (base : String) :
    Nat → Nat → List Json → FetchOutcome × List Event
  | 0, _, _ => (.pending, [])
  | fuel+1, page, collection =>
    let pageUrl := base ++ toString page
    let ev := Event.httpGet pageUrl
    match upstream pageUrl with
    | .transport _ => (.thrown, [ev])
    | .body none => (.thrown, [ev])
    | .body (some data) =>
      match getLength data with
      | .error _ => (.thrown, [ev])
      | .ok lenProp =>
        if truthy lenProp then
          let r := fetchPages upstream base fuel (page + 1) (collection ++ jsConcatElems data)
          (r.1, ev :: r.2)
        else if 0 < collection.length then
          (.callbackOk (.arr collection), [ev])
        else
          match getField data "message" with
          | .error _ => (.thrown, [ev])
          | .ok msgProp =>
            if truthy msgProp then (.callbackErr data, [ev])
            else (.callbackOk data, [ev])

/-- The page-URL base built by `githubRequest`:
`"https://api.github.com/" + options.query + "?access_token=" + accessToken + "&page="`. -/
def ghPageBase (token query : String) : String :=
  "https://api.github.com/" ++ query ++ "?access_token=" ++ token ++ "&page="

/-- `Github.prototype.githubRequest` (src/server/models/github.js lines
91-125): build the page-URL base and start the fetch loop at page 0 with an
empty collection. -/
def githubRequest (token query : String) (upstream : String → PageResult)
    (fuel : Nat) : FetchOutcome × List Event :=
  fetchPages upstream (ghPageBase token query) fuel 0 []

theorem fetchPages_paginated (upstream : String → PageResult) (base : String)
    (ps : List (List Json)) :
    ∀ (start : Nat) (acc : List Json) (fuel : Nat),
    (∀ p ∈ ps, p ≠ []) →
    (∀ i, i < ps.length →
      upstream (base ++ toString (start + i)) = .body (some (.arr (ps.getD i [])))) →
    upstream (base ++ toString (start + ps.length)) = .body (some (.arr [])) →
    ps.length + 1 ≤ fuel →
    fetchPages upstream base fuel start acc =
      (.callbackOk (.arr (acc ++ ps.flatten)),
       (List.range' start (ps.length + 1)).map (fun i => Event.httpGet (base ++ toString i))) := by
  induction ps with
  | nil =>
    intro start acc fuel _ _ hlast hfuel
    obtain ⟨f, rfl⟩ : ∃ f, fuel = f + 1 := ⟨fuel - 1, by omega⟩
    simp only [List.length_nil, Nat.add_zero] at hlast
    simp only [fetchPages, hlast, getLength, List.length_nil, truthy]
    by_cases hacc : 0 < acc.length
    · simp [hacc]
    · have : acc = [] := by
        cases acc with
        | nil => rfl
        | cons a l => simp at hacc
      subst this
      simp [getField]
  | cons p ps ih =>
    intro start acc fuel hne hpages hlast hfuel
    obtain ⟨f, rfl⟩ : ∃ f, fuel = f + 1 := ⟨fuel - 1, by omega⟩
    have hp0 : upstream (base ++ toString start) = .body (some (.arr p)) := by
      have := hpages 0 (by simp)
      simpa using this
    have hpne : p ≠ [] := hne p (by simp)
    have hplen : (0 : Int) < p.length := by
      have : p.length ≠ 0 := by simpa using hpne
      omega
    simp only [fetchPages, hp0, getLength]
    have htr : truthy (.val (.num (p.length : Int))) = true := by
      simp only [truthy, decide_eq_true_eq]
      omega
    rw [htr]
    simp only [if_pos rfl, jsConcatElems]
    have hrec := ih (start + 1) (acc ++ p) f
      (fun q hq => hne q (by simp [hq]))
      (fun i hi => by
        have := hpages (i + 1) (by simpa using Nat.succ_lt_succ hi)
        have harg : start + (i + 1) = start + 1 + i := by omega
        rw [harg] at this
        simpa using this)
      (by
        have := hlast
        have harg : start + (p :: ps).length = start + 1 + ps.length := by simp; omega
        rwa [harg] at this)
      (by simp only [List.length_cons] at hfuel; omega)
    rw [hrec]
    simp [List.range'_succ, List.append_assoc]

/-- C1: for a paginated fetch whose upstream returns the non-empty array pages
`ps` at pages `0 .. n-1` and an empty array at page `n`, `githubRequest`
invokes its callback with the concatenation of the pages in page order and
issues exactly `n + 1` page requests, for pages `0` through `n`. -/
theorem githubRequest_pagination (token query : String)
    (upstream : String → PageResult) (ps : List (List Json)) (fuel : Nat)
    (hne : ∀ p ∈ ps, p ≠ [])
    (hpages : ∀ i, i < ps.length →
      upstream (ghPageBase token query ++ toString i) = .body (some (.arr (ps.getD i []))))
    (hlast : upstream (ghPageBase token query ++ toString ps.length) = .body (some (.arr [])))
    (hfuel : ps.length + 1 ≤ fuel) :
    githubRequest token query upstream fuel =
      (.callbackOk (.arr ps.flatten),
       (List.range (ps.length + 1)).map
         (fun i => Event.httpGet (ghPageBase token query ++ toString i))) := by
  have := fetchPages_paginated upstream (ghPageBase token query) ps 0 [] fuel hne
    (by simpa using hpages) (by simpa using hlast) hfuel
  rw [List.range_eq_range']
  simpa using this

/-- Upstream used by the C1 witness: page 0 of `orgs/a/repos` holds one
element, every other URL returns an empty array. -/
def c1Upstream : String → PageResult := fun s =>
  if s = ghPageBase "t" "orgs/a/repos" ++ "0" then .body (some (.arr [.num 1]))
  else .body (some (.arr []))

theorem githubRequest_pagination_witness :
    (∀ p ∈ [[Json.num 1]], p ≠ []) ∧
    githubRequest "t" "orgs/a/repos" c1Upstream 2 =
      (.callbackOk (.arr [.num 1]),
       [.httpGet (ghPageBase "t" "orgs/a/repos" ++ "0"),
        .httpGet (ghPageBase "t" "orgs/a/repos" ++ "1")]) := by
  refine ⟨by simp, ?_⟩
  have h := githubRequest_pagination "t" "orgs/a/repos" c1Upstream [[Json.num 1]] 2
    (by simp)
    (by
      intro i hi
      have h0 : i = 0 := by simp at hi; omega
      subst h0
      rfl)
    (by rfl)
    (by norm_num)
  exact h.trans rfl

/-- One Response Cache entry: key, stored value, insertion time (ms). -/
structure CacheEntry where
  key : String
  value : Json
  time : Nat

/-- Modelled from the spec: the Response Cache constructed as
`lru({ max: 100, maxAge: 1000 * 60 * 5 })` (src/server/models/github.js lines
23-26) is the external lru-cache library, whose code is not part of this
repository. Per the spec it is a bounded time-expiring key-value store:
capacity-bounded (inserting beyond capacity drops the least recently used
entry) and age-bounded (a fixed TTL per entry, measured from insertion, with
`get` treating an entry older than the TTL as absent). Entries are kept most
recently inserted first. -/
structure LruCache where
  maxEntries : Nat
  maxAge : Nat
  entries : List CacheEntry

/-- `cache.set(key, value)`: insert at the front, replacing any previous entry
for the key, and drop beyond-capacity entries from the least recently used
end. -/
def LruCache.set (c : LruCache) (k : String) (v : Json) (now : Nat) : LruCache :=
  { c with
    entries := (({ key := k, value := v, time := now } : CacheEntry) ::
      c.entries.filter (fun e => e.key ≠ k)).take c.maxEntries }

/-- `cache.get(key)`: return the stored value unless the entry is older than
the TTL, in which case it is treated as absent. -/
def LruCache.get (c : LruCache) (k : String) (now : Nat) : Option Json :=
  match c.entries.find? (fun e => e.key = k) with
  | some e => if now ≤ e.time + c.maxAge then some e.value else none
  | none => none

theorem LruCache.get_set_fresh (c : LruCache) (k : String) (v : Json)
    (t0 t1 : Nat) (hmax : 0 < c.maxEntries) (h : t1 ≤ t0 + c.maxAge) :
    (c.set k v t0).get k t1 = some v := by
  obtain ⟨m, hm⟩ : ∃ m, c.maxEntries = m + 1 := ⟨c.maxEntries - 1, by omega⟩
  simp [LruCache.set, LruCache.get, hm, List.take_succ_cons, List.find?_cons, h]

theorem LruCache.get_set_stale (c : LruCache) (k : String) (v : Json)
    (t0 t2 : Nat) (h : t0 + c.maxAge < t2) :
    (c.set k v t0).get k t2 = none := by
  cases hm : c.maxEntries with
  | zero => simp [LruCache.set, LruCache.get, hm]
  | succ m =>
    have hno : ¬ t2 ≤ t0 + c.maxAge := by omega
    simp [LruCache.set, LruCache.get, hm, List.take_succ_cons, List.find?_cons, hno]

/-- The result of one `request({ method: 'GET', ..., json: {} }, cb)` call as
seen by its callback: a transport error, or a successfully delivered (and
already JSON-decoded) body. -/
inductive HttpResult where
  | err (e : Json)
  | ok (body : Json)

/-- `Github.prototype.githubJSON` (src/server/models/github.js lines 127-151):
build the resource URL, return the cached copy when the cache holds one
(`typeof copy !== 'undefined'`), otherwise perform the upstream request; on a
transport error call back with the error and cache nothing, otherwise store
the body — whatever it is — in the cache and call back with `(null, body)`.
Returns the callback arguments, the updated cache, and the event trace. -/
def githubJSON (cache : LruCache) (upstream : String → HttpResult) (now : Nat)
    (fragment : String) : (Option Json × Option Json) × LruCache × List Event :=
  let url := "https://api.github.com" ++ fragment
  match cache.get url now with
  | some copy => ((none, some copy), cache, [.cacheGet url])
  | none =>
    match upstream url with
    | .err e => ((some e, none), cache, [.cacheGet url, .httpGet url])
    | .ok body =>
      ((none, some body), cache.set url body now,
       [.cacheGet url, .httpGet url, .cacheSet url])

/-- C5: for every cache key, a `set` followed by a `get` within the TTL window
returns the identical stored value — and a `githubJSON` read served by such a
fresh entry performs no upstream call — while once the TTL has elapsed since
insertion the entry is treated as absent. -/
theorem cache_set_get_ttl (c : LruCache) (k : String) (v : Json)
    (t0 t1 t2 : Nat) (hmax : 0 < c.maxEntries) (hin : t1 ≤ t0 + c.maxAge)
    (hout : t0 + c.maxAge < t2) :
    (c.set k v t0).get k t1 = some v ∧
    (c.set k v t0).get k t2 = none ∧
    ∀ (upstream : String → HttpResult) (fragment : String),
      "https://api.github.com" ++ fragment = k →
      githubJSON (c.set k v t0) upstream t1 fragment =
        ((none, some v), c.set k v t0, [.cacheGet k]) := by
  have hfresh := LruCache.get_set_fresh c k v t0 t1 hmax hin
  refine ⟨hfresh, LruCache.get_set_stale c k v t0 t2 hout, ?_⟩
  intro upstream fragment hurl
  simp [githubJSON, hurl, hfresh]

theorem cache_set_get_ttl_witness :
    (0 < (100 : Nat)) ∧ (300000 ≤ 0 + 300000) ∧ (0 + 300000 < 300001) ∧
    (LruCache.get
      (LruCache.set { maxEntries := 100, maxAge := 300000, entries := [] }
        "https://api.github.com/k" (.str "v") 0)
      "https://api.github.com/k" 300000 = some (.str "v")) ∧
    (LruCache.get
      (LruCache.set { maxEntries := 100, maxAge := 300000, entries := [] }
        "https://api.github.com/k" (.str "v") 0)
      "https://api.github.com/k" 300001 = none) ∧
    githubJSON
      (LruCache.set { maxEntries := 100, maxAge := 300000, entries := [] }
        "https://api.github.com/k" (.str "v") 0)
      (fun _ => .ok .null) 300000 "/k" =
      ((none, some (.str "v")),
       LruCache.set { maxEntries := 100, maxAge := 300000, entries := [] }
         "https://api.github.com/k" (.str "v") 0,
       [.cacheGet "https://api.github.com/k"]) := by
  have H := cache_set_get_ttl { maxEntries := 100, maxAge := 300000, entries := [] }
    "https://api.github.com/k" (.str "v") 0 300000 300001
    (by norm_num) (by norm_num) (by norm_num)
  exact ⟨by norm_num, by norm_num, by norm_num, H.1, H.2.1, H.2.2 (fun _ => .ok .null) "/k" rfl⟩

/-- C10: `githubJSON` caches whatever body arrives without a transport error —
including upstream error payloads — so a subsequent call for the same
resource path within the TTL window returns the cached payload as a success
value (error argument null) and performs no re-fetch. -/
theorem githubJSON_caches_any_body (cache : LruCache)
    (upstream upstream2 : String → HttpResult) (now later : Nat)
    (fragment : String) (body : Json) (hmax : 0 < cache.maxEntries)
    (hmiss : cache.get ("https://api.github.com" ++ fragment) now = none)
    (hup : upstream ("https://api.github.com" ++ fragment) = .ok body)
    (hfresh : later ≤ now + cache.maxAge) :
    githubJSON cache upstream now fragment =
      ((none, some body),
       cache.set ("https://api.github.com" ++ fragment) body now,
       [.cacheGet ("https://api.github.com" ++ fragment),
        .httpGet ("https://api.github.com" ++ fragment),
        .cacheSet ("https://api.github.com" ++ fragment)]) ∧
    githubJSON (cache.set ("https://api.github.com" ++ fragment) body now)
        upstream2 later fragment =
      ((none, some body),
       cache.set ("https://api.github.com" ++ fragment) body now,
       [.cacheGet ("https://api.github.com" ++ fragment)]) := by
  constructor
  · simp [githubJSON, hmiss, hup]
  · have hget := LruCache.get_set_fresh cache
      ("https://api.github.com" ++ fragment) body now later hmax hfresh
    simp [githubJSON, hget]

theorem githubJSON_caches_any_body_witness :
    (LruCache.get { maxEntries := 100, maxAge := 300000, entries := [] }
      "https://api.github.com/rate" 5 = none) ∧
    githubJSON { maxEntries := 100, maxAge := 300000, entries := [] }
      (fun _ => .ok (.obj [("message", .str "API rate limit exceeded")])) 5 "/rate" =
      ((none, some (.obj [("message", .str "API rate limit exceeded")])),
       LruCache.set { maxEntries := 100, maxAge := 300000, entries := [] }
         "https://api.github.com/rate" (.obj [("message", .str "API rate limit exceeded")]) 5,
       [.cacheGet "https://api.github.com/rate",
        .httpGet "https://api.github.com/rate",
        .cacheSet "https://api.github.com/rate"]) ∧
    githubJSON
      (LruCache.set { maxEntries := 100, maxAge := 300000, entries := [] }
        "https://api.github.com/rate" (.obj [("message", .str "API rate limit exceeded")]) 5)
      (fun _ => .err (.str "should not be consulted")) 300004 "/rate" =
      ((none, some (.obj [("message", .str "API rate limit exceeded")])),
       LruCache.set { maxEntries := 100, maxAge := 300000, entries := [] }
         "https://api.github.com/rate" (.obj [("message", .str "API rate limit exceeded")]) 5,
       [.cacheGet "https://api.github.com/rate"]) := by
  have H := githubJSON_caches_any_body { maxEntries := 100, maxAge := 300000, entries := [] }
    (fun _ => .ok (.obj [("message", .str "API rate limit exceeded")]))
    (fun _ => .err (.str "should not be consulted")) 5 300004 "/rate"
    (.obj [("message", .str "API rate limit exceeded")])
    (by norm_num) (by simp [LruCache.get]) rfl (by norm_num)
  exact ⟨by simp [LruCache.get], H.1, H.2⟩

/-- The structural fields of an upstream milestone record that the selection
code depends on: `due_on` as a timestamp and `number` as the identifier. -/
structure Milestone where
  due_on : Int
  number : Nat
deriving DecidableEq, Repr

/-- The scanning loop of `Github.prototype.thisMilestone`
(src/server/models/github.js lines 297-304): the `milestone` variable starts
as `milestones[0]`, each iteration assigns `milestone = milestones[i]`, and
the loop breaks at the first milestone whose due date is in the future
(`new Date(milestone.due_on) > new Date()`). `cur` is the current value of
the `milestone` variable; the list argument is the part not yet scanned. -/
def thisLoop (now : Int) : List Milestone → Option Milestone → Option Milestone
  | [], cur => cur
  | m :: rest, _ => if now < m.due_on then some m else thisLoop now rest (some m)

/-- The milestone selected by `Github.prototype.thisMilestone` (lines
291-312); `none` models the `undefined` that makes the function call back
with the error 404. -/
def thisMilestoneSel (now : Int) (ms : List Milestone) : Option Milestone :=
  thisLoop now ms ms.head?

/-- The scanning loop of `Github.prototype.nextMilestone` (lines 320-329): it
breaks at the first future milestone, at index `i`, selecting
`milestones[Math.min(i + 1, milestones.length - 1)]`; otherwise the
`milestone` variable keeps the last assigned element. -/
def nextLoop (now : Int) (ms : List Milestone) :
    List Milestone → Nat → Option Milestone → Option Milestone
  | [], _, cur => cur
  | m :: rest, i, _ =>
    if now < m.due_on then ms.get? (min (i + 1) (ms.length - 1))
    else nextLoop now ms rest (i + 1) (some m)

/-- The milestone selected by `Github.prototype.nextMilestone` (lines
314-337). -/
def nextMilestoneSel (now : Int) (ms : List Milestone) : Option Milestone :=
  nextLoop now ms ms 0 ms.head?

/-- Index of the first milestone whose due date is in the future, if any
(specification-side description of the scan). -/
def firstFutureIdx (now : Int) : List Milestone → Option Nat
  | [] => none
  | m :: rest =>
    if now < m.due_on then some 0 else (firstFutureIdx now rest).map (· + 1)

theorem thisLoop_eq (now : Int) (ms : List Milestone) : ∀ cur,
    thisLoop now ms cur =
      match ms.find? (fun m => now < m.due_on) with
      | some x => some x
      | none => ms.getLast?.orElse (fun _ => cur) := by
  induction ms with
  | nil => intro cur; simp [thisLoop, Option.orElse]
  | cons m rest ih =>
    intro cur
    by_cases hm : now < m.due_on
    · simp [thisLoop, hm, List.find?_cons]
    · simp only [thisLoop, if_neg hm, ih (some m)]
      have hfind : (m :: rest).find? (fun m => now < m.due_on) =
          rest.find? (fun m => now < m.due_on) := by
        simp [List.find?_cons, hm]
      rw [hfind]
      cases hrest : rest.find? (fun m => now < m.due_on) with
      | some x => rfl
      | none =>
        cases rest with
        | nil => simp [Option.orElse]
        | cons r rs =>
          have : (m :: r :: rs).getLast? = (r :: rs).getLast? := by
            simp [List.getLast?]
          rw [this]
          cases hlast : (r :: rs).getLast? with
          | some x => simp [Option.orElse]
          | none => simp at hlast

theorem nextLoop_eq (now : Int) (ms : List Milestone) :
    ∀ (rem : List Milestone) (i : Nat) (cur : Option Milestone),
    nextLoop now ms rem i cur =
      match firstFutureIdx now rem with
      | some j => ms.get? (min (i + j + 1) (ms.length - 1))
      | none => rem.getLast?.orElse (fun _ => cur) := by
  intro rem
  induction rem with
  | nil => intro i cur; simp [nextLoop, firstFutureIdx, Option.orElse]
  | cons m rest ih =>
    intro i cur
    by_cases hm : now < m.due_on
    · simp [nextLoop, hm, firstFutureIdx]
    · simp only [nextLoop, if_neg hm, ih (i + 1) (some m), firstFutureIdx]
      cases hrest : firstFutureIdx now rest with
      | some j =>
        simp only [hrest, Option.map_some']
        have : i + 1 + j + 1 = i + (j + 1) + 1 := by omega
        rw [this]
      | none =>
        simp only [hrest, Option.map_none']
        cases rest with
        | nil => simp [Option.orElse]
        | cons r rs =>
          have : (m :: r :: rs).getLast? = (r :: rs).getLast? := by
            simp [List.getLast?]
          rw [this]
          cases hlast : (r :: rs).getLast? with
          | some x => simp [Option.orElse]
          | none => simp at hlast

/-- C6: `thisMilestone` selects the first milestone whose due date is in the
future and falls back to the last listed milestone when none is future;
`nextMilestone` selects the element immediately after the first future
milestone, clamped to the last index; and on due dates [past, future1,
future2] (relative to now = 0) the current selection is future1 and the next
selection is future2, while with only past dates the current selection is the
last listed milestone. -/
theorem milestone_selection (now : Int) (ms : List Milestone) :
    (thisMilestoneSel now ms =
      match ms.find? (fun m => now < m.due_on) with
      | some x => some x
      | none => ms.getLast?) ∧
    (nextMilestoneSel now ms =
      match firstFutureIdx now ms with
      | some j => ms.get? (min (j + 1) (ms.length - 1))
      | none => ms.getLast?) ∧
    thisMilestoneSel 0 [⟨-1, 1⟩, ⟨1, 2⟩, ⟨2, 3⟩] = some ⟨1, 2⟩ ∧
    nextMilestoneSel 0 [⟨-1, 1⟩, ⟨1, 2⟩, ⟨2, 3⟩] = some ⟨2, 3⟩ ∧
    thisMilestoneSel 0 [⟨-5, 1⟩, ⟨-3, 2⟩] = some ⟨-3, 2⟩ := by
  refine ⟨?_, ?_, by decide, by decide, by decide⟩
  · rw [thisMilestoneSel, thisLoop_eq]
    cases hfind : ms.find? (fun m => now < m.due_on) with
    | some x => rfl
    | none =>
      cases ms with
      | nil => rfl
      | cons m rest =>
        cases hlast : (m :: rest).getLast? with
        | some x => simp [Option.orElse]
        | none => simp at hlast
  · rw [nextMilestoneSel, nextLoop_eq]
    cases hidx : firstFutureIdx now ms with
    | some j => simp
    | none =>
      cases ms with
      | nil => rfl
      | cons m rest =>
        cases hlast : (m :: rest).getLast? with
        | some x => simp [Option.orElse]
        | none => simp at hlast

/-- A label record: the only structural field the partition depends on. -/
structure Label where
  name : String
deriving DecidableEq, Repr

/-- An issue record as consumed by `sortIssuesByPriority`: `labels` is `none`
when the record carries no labels field (in which case the source expression
`issue.labels.length` throws a TypeError). -/
structure Issue where
  labels : Option (List Label)
  number : Nat
deriving DecidableEq, Repr

/-- The inner label scan of `sortIssuesByPriority` (lines 75-80): `isPriority`
becomes true exactly when some label is literally named p1. -/
def hasP1 (labels : List Label) : Bool :=
  labels.any (fun l => l.name == "p1")

/-- Whether an issue lands in the priority partition (specification side):
its labels, when present, contain one named p1. -/
def issuePriority (i : Issue) : Bool :=
  hasP1 (i.labels.getD [])

/-- `Github.prototype.sortIssuesByPriority` (src/server/models/github.js
lines 65-86): walk the issues in order, pushing each one onto `p1` when it
carries a label named p1 and onto `p2` otherwise. The pair is (p1, p2). -/
def sortIssuesByPriority : List Issue → Except JsError (List Issue × List Issue)
  | [] => .ok ([], [])
  | issue :: rest =>
    match issue.labels with
    | none => .error .typeError
    | some ls =>
      match sortIssuesByPriority rest with
      | .error e => .error e
      | .ok r =>
        .ok (if hasP1 ls then (issue :: r.1, r.2) else (r.1, issue :: r.2))

/-- C7: on every list of issues (each carrying a labels field),
`sortIssuesByPriority` partitions the list into the issues with a label named
p1 and the rest, each side preserving the relative input order — the two
sides are order-preserving filters of the input. -/
theorem sortIssuesByPriority_partition (issues : List Issue)
    (h : ∀ i ∈ issues, i.labels.isSome) :
    sortIssuesByPriority issues =
      .ok (issues.filter issuePriority,
           issues.filter (fun i => !issuePriority i)) := by
  induction issues with
  | nil => rfl
  | cons a rest ih =>
    obtain ⟨ls, hls⟩ : ∃ ls, a.labels = some ls := by
      have := h a (by simp)
      cases hl : a.labels with
      | none => rw [hl] at this; simp at this
      | some ls => exact ⟨ls, rfl⟩
    have hrest := ih (fun i hi => h i (by simp [hi]))
    have hpri : issuePriority a = hasP1 ls := by simp [issuePriority, hls]
    by_cases hp : hasP1 ls
    · simp [sortIssuesByPriority, hls, hrest, List.filter_cons, hpri, hp]
    · simp [sortIssuesByPriority, hls, hrest, List.filter_cons, hpri, hp]

theorem sortIssuesByPriority_partition_witness :
    (∀ i ∈ [({ labels := some [⟨"p1"⟩], number := 1 } : Issue),
            { labels := some [], number := 2 },
            { labels := some [⟨"p1"⟩, ⟨"other"⟩], number := 3 }], i.labels.isSome) ∧
    sortIssuesByPriority
      [{ labels := some [⟨"p1"⟩], number := 1 },
       { labels := some [], number := 2 },
       { labels := some [⟨"p1"⟩, ⟨"other"⟩], number := 3 }] =
      .ok ([{ labels := some [⟨"p1"⟩], number := 1 },
            { labels := some [⟨"p1"⟩, ⟨"other"⟩], number := 3 }],
           [{ labels := some [], number := 2 }]) := by
  refine ⟨by decide, ?_⟩
  exact (sortIssuesByPriority_partition _ (by decide)).trans rfl

theorem sortIssuesByPriority_error_of_missing (issues : List Issue) :
    ∀ i ∈ issues, i.labels = none →
      sortIssuesByPriority issues = .error .typeError := by
  induction issues with
  | nil => intro i hi; simp at hi
  | cons a rest ih =>
    intro i hi hnone
    rcases List.mem_cons.mp hi with rfl | hi'
    · simp [sortIssuesByPriority, hnone]
    · cases ha : a.labels with
      | none => simp [sortIssuesByPriority, ha]
      | some ls => simp [sortIssuesByPriority, ha, ih i hi' hnone]

/-- C3 counterexample: at a concrete input the claim fails — a malformed
(non-JSON) response body makes the request callback throw (the
`JSON.parse(body)` on line 106 is unguarded), rather than turning into an
error result, and `sortIssuesByPriority` on an issue without a labels field
throws a TypeError (line 75 accesses `issue.labels.length`) instead of
treating the issue as non-matching. -/
theorem malformed_throws_counterexample :
    (githubRequest "t" "q" (fun _ => .body none) 2).1 = .thrown ∧
    sortIssuesByPriority [{ labels := none, number := 7 }] =
      .error .typeError :=
  ⟨rfl, rfl⟩

/-- C3 amended: a non-JSON (malformed) response body is not turned into an
error result — the unguarded `JSON.parse` makes the fetch callback throw —
and an issue whose labels field is absent is not treated as non-matching —
`sortIssuesByPriority` throws a TypeError on it. -/
theorem malformed_throws (token query : String)
    (upstream : String → PageResult) (fuel : Nat) (hfuel : 0 < fuel)
    (hbad : upstream (ghPageBase token query ++ "0") = .body none)
    (issues : List Issue) (i : Issue) (hmem : i ∈ issues)
    (hnone : i.labels = none) :
    (githubRequest token query upstream fuel).1 = .thrown ∧
    sortIssuesByPriority issues = .error .typeError := by
  constructor
  · obtain ⟨f, rfl⟩ : ∃ f, fuel = f + 1 := ⟨fuel - 1, by omega⟩
    have h0 : ghPageBase token query ++ toString (0 : Nat) =
        ghPageBase token query ++ "0" := rfl
    simp only [githubRequest, fetchPages, h0, hbad]
  · exact sortIssuesByPriority_error_of_missing issues i hmem hnone

theorem malformed_throws_witness :
    (0 < 1) ∧
    ((fun _ => PageResult.body none) (ghPageBase "t" "q" ++ "0") =
      PageResult.body none) ∧
    (({ labels := none, number := 1 } : Issue) ∈
      [({ labels := none, number := 1 } : Issue)]) ∧
    (({ labels := none, number := 1 } : Issue).labels = none) ∧
    (githubRequest "t" "q" (fun _ => .body none) 1).1 = .thrown ∧
    sortIssuesByPriority [{ labels := none, number := 1 }] =
      .error .typeError := by
  have H := malformed_throws "t" "q" (fun _ => .body none) 1 (by norm_num) rfl
    [{ labels := none, number := 1 }] { labels := none, number := 1 }
    (by simp) rfl
  exact ⟨by norm_num, rfl, by simp, rfl, H.1, H.2⟩

/-- A team record from `GET /orgs/MozillaFoundation/teams`: the fields
`Github.prototype.teamMembers` reads are `name` and `id`. -/
structure TeamBlob where
  name : String
  id : Nat
deriving DecidableEq, Repr

/-- A member record from `GET /teams/:id/members`: `teamMembers` reads only
`login` (per the data model, the identity field of a user record). -/
structure MemberBlob where
  login : String
deriving DecidableEq, Repr

/-- ASCII lowercasing of one character, as `String.prototype.toLowerCase`
performs on the A-Z range the team names here are drawn from. -/
def jsCharToLower (c : Char) : Char :=
  if 'A' ≤ c ∧ c ≤ 'Z' then Char.ofNat (c.toNat + 32) else c

/-- `String.prototype.toLowerCase` on ASCII strings. -/
def jsToLower (s : String) : String :=
  ⟨s.data.map jsCharToLower⟩

/-- `async.map` over the member list (lines 406-411): the per-member fetch of
`/users/:login` either fails — the first failure is passed to the final
callback — or all user blobs are collected in order. -/
def asyncMapUsers (userFetch : String → Except Json Json) :
    List String → Except Json (List Json)
  | [] => .ok []
  | l :: ls =>
    match userFetch l with
    | .error e => .error e
    | .ok b =>
      match asyncMapUsers userFetch ls with
      | .error e => .error e
      | .ok bs => .ok (b :: bs)

/-- `Github.prototype.teamMembers` (src/server/models/github.js lines
388-418), modelled as the list of invocations of its callback, in order:

* when the teams fetch yields no usable team list (`if (teamsblob)` is
  falsy), nothing further happens — the `callback('failure')` that would
  report this is commented out in the source, so the callback list is empty;
* otherwise, for each team whose name matches case-insensitively, the member
  list for its id is fetched and `async.map` over the members invokes the
  callback once (so zero matches invoke the callback zero times and several
  matches invoke it several times).

`teamsblob` is the parsed team list (`none` when the teams fetch failed),
`membersOf` gives the member page for a team id, and `userFetch` the
per-user lookup. -/
def teamMembers (teamsblob : Option (List TeamBlob)) (team : String)
    (membersOf : Nat → List MemberBlob)
    (userFetch : String → Except Json Json) :
    List (Option Json × Option Json) :=
  match teamsblob with
  | none => []
  | some blobs =>
    (blobs.filter (fun tb => jsToLower tb.name == jsToLower team)).map (fun tb =>
      match asyncMapUsers userFetch ((membersOf tb.id).map (·.login)) with
      | .error e => (some e, none)
      | .ok xs => (none, some (.arr xs)))

/-- C2: the claim says every read operation resolves exactly once, for every
upstream behaviour including a team name that matches no team. The code
violates this: when no team name matches, `teamMembers` never invokes its
callback at all (the `callback('failure')` on line 416 is commented out), so
the caller is left unresolved forever — here, with the team list holding
only "Devs", a lookup for "marketing" produces zero callback invocations,
whatever the member and user fetches would do. -/
theorem teamMembers_no_match_never_resolves
    (membersOf : Nat → List MemberBlob)
    (userFetch : String → Except Json Json) :
    teamMembers (some [{ name := "Devs", id := 1 }]) "marketing"
      membersOf userFetch = [] := by
  rfl

/-- How one fan-out operation ends: thrown and pending as before, or a single
final callback invocation with error-first arguments. -/
inductive OpOutcome where
  | thrown
  | pending
  | called (err : Option Json) (v : Option Json)

/-- `async.concat` (async 1.x) over per-element fetch runs, each given with
its outcome and event trace. The library accumulates `r = r.concat(y || [])`
per element and invokes its final callback once with `(err, r)`: at the first
per-element error `r` is the accumulation so far, with no error it is the
full concatenation. The concurrent fan-out is modelled sequentially in input
order. A per-element run that throws crashes the process; one that never
calls back leaves the operation pending. -/
def asyncConcatGo (acc : List Json) (evs : List Event) :
    List (FetchOutcome × List Event) → OpOutcome × List Event
  | [] => (.called none (some (.arr acc)), evs)
  | (o, e) :: rest =>
    match o with
    | .thrown => (.thrown, evs ++ e)
    | .pending => (.pending, evs ++ e)
    | .callbackErr err => (.called (some err) (some (.arr acc)), evs ++ e)
    | .callbackOk v => asyncConcatGo (acc ++ jsConcatElems v) (evs ++ e) rest

/-- `Github.prototype.getRepos` (src/server/models/github.js lines 210-218):
fan `orgs/:org/repos` out over the orgs with `async.concat` and pass both
final callback arguments straight through (`callback(err, results)`). -/
def getRepos (token : String) (orgs : List String)
    (upstream : String → PageResult) (fuel : Nat) : OpOutcome × List Event :=
  asyncConcatGo [] []
    (orgs.map (fun org =>
      githubRequest token ("orgs/" ++ org ++ "/repos") upstream fuel))

/-- See `res.json`: an `undefined` pushed into the output array serializes as
`null`. -/
def jsPropToJson : JsProp → Json
  | .undefined => .null
  | .val j => j

/-- The duplicate-removal loop shared by getUsersForOrgs,
getMilestonesForRepos and getLabelsForRepos: walk the merged records in
order, read the identity field of each, and push it unless `indexOf` (strict
equality) already finds it. A `null` record makes the field access throw. -/
def dedupFieldGo (field : String) (acc : List JsProp) :
    List Json → Except JsError (List JsProp)
  | [] => .ok acc
  | u :: us =>
    match getField u field with
    | .error e => .error e
    | .ok l =>
      dedupFieldGo field
        (if acc.any (fun a => jsStrictEq a l) then acc else acc ++ [l]) us

/-- The final callback shared by the three deduplicating fan-out operations
(lines 225-238, 248-261, 271-284): on error, `callback(err)` with no second
argument; on success, dedup by the identity field and call back with the
collected identities. A thrown dedup (null record) crashes the process. -/
def dedupFinal (field : String) : OpOutcome → OpOutcome
  | .called (some e) _ => .called (some e) none
  | .called none (some (.arr rs)) =>
    match dedupFieldGo field [] rs with
    | .error _ => .thrown
    | .ok ids => .called none (some (.arr (ids.map jsPropToJson)))
  | o => o

/-- `Github.prototype.getUsersForOrgs` (lines 220-239): fan out
`orgs/:org/members`, then dedup by `login`. -/
def getUsersForOrgs (token : String) (orgs : List String)
    (upstream : String → PageResult) (fuel : Nat) : OpOutcome × List Event :=
  let r := asyncConcatGo [] []
    (orgs.map (fun org =>
      githubRequest token ("orgs/" ++ org ++ "/members") upstream fuel))
  (dedupFinal "login" r.1, r.2)

/-- `Github.prototype.getMilestonesForRepos` (lines 241-262): fan out
`repos/:repo/milestones`, then dedup by `title`. -/
def getMilestonesForRepos (token : String) (repos : List String)
    (upstream : String → PageResult) (fuel : Nat) : OpOutcome × List Event :=
  let r := asyncConcatGo [] []
    (repos.map (fun repo =>
      githubRequest token ("repos/" ++ repo ++ "/milestones") upstream fuel))
  (dedupFinal "title" r.1, r.2)

/-- `Github.prototype.getLabelsForRepos` (lines 264-285): fan out
`repos/:repo/labels`, then dedup by `name`. -/
def getLabelsForRepos (token : String) (repos : List String)
    (upstream : String → PageResult) (fuel : Nat) : OpOutcome × List Event :=
  let r := asyncConcatGo [] []
    (repos.map (fun repo =>
      githubRequest token ("repos/" ++ repo ++ "/labels") upstream fuel))
  (dedupFinal "name" r.1, r.2)

theorem asyncConcatGo_err_split (e : Json) (ebad : List Event)
    (rest : List (FetchOutcome × List Event)) :
    ∀ (pre : List (FetchOutcome × List Event)),
    (∀ x ∈ pre, ∃ v, x.1 = FetchOutcome.callbackOk v) →
    ∀ acc evs, ∃ acc2 evs2,
      asyncConcatGo acc evs (pre ++ (FetchOutcome.callbackErr e, ebad) :: rest) =
        (.called (some e) (some (.arr acc2)), evs2) := by
  intro pre
  induction pre with
  | nil => intro _ acc evs; exact ⟨acc, evs ++ ebad, rfl⟩
  | cons x pre ih =>
    intro hpre acc evs
    obtain ⟨v, hv⟩ := hpre x (by simp)
    obtain ⟨o, ev⟩ := x
    simp only at hv
    subst hv
    simpa [asyncConcatGo] using
      ih (fun y hy => hpre y (by simp [hy])) (acc ++ jsConcatElems v) (evs ++ ev)

theorem fanout_err (token : String) (upstream : String → PageResult)
    (fuel : Nat) (qb : String → String) (pre post : List String) (bad : String)
    (e : Json)
    (hpre : ∀ o ∈ pre, ∃ v,
      (githubRequest token (qb o) upstream fuel).1 = .callbackOk v)
    (hbad : (githubRequest token (qb bad) upstream fuel).1 = .callbackErr e) :
    ∃ acc2 evs2,
      asyncConcatGo [] []
        ((pre ++ bad :: post).map
          (fun o => githubRequest token (qb o) upstream fuel)) =
        (.called (some e) (some (.arr acc2)), evs2) := by
  have hpre' : ∀ x ∈ pre.map (fun o => githubRequest token (qb o) upstream fuel),
      ∃ v, x.1 = FetchOutcome.callbackOk v := by
    intro x hx
    obtain ⟨o, ho, rfl⟩ := List.mem_map.mp hx
    exact hpre o ho
  have hbadeq : githubRequest token (qb bad) upstream fuel =
      (FetchOutcome.callbackErr e,
       (githubRequest token (qb bad) upstream fuel).2) := by
    rw [← hbad]
  obtain ⟨a2, e2, h⟩ := asyncConcatGo_err_split e
    (githubRequest token (qb bad) upstream fuel).2
    (post.map (fun o => githubRequest token (qb o) upstream fuel))
    (pre.map (fun o => githubRequest token (qb o) upstream fuel)) hpre' [] []
  refine ⟨a2, e2, ?_⟩
  rw [List.map_append, List.map_cons, hbadeq]
  exact h

/-- C8 amended: if one of the per-element fetches of a fan-out operation
errors (after any number of successful ones), the operation's result is that
error: getUsersForOrgs, getMilestonesForRepos and getLabelsForRepos then
invoke their callback with the error alone and no list at all, while
getRepos passes the error together with the partial concatenation
accumulated so far as its second callback argument. -/
theorem fanout_fail_fast (token : String) (upstream : String → PageResult)
    (fuel : Nat) (pre post : List String) (bad : String) (e1 e2 e3 e4 : Json)
    (hpre1 : ∀ o ∈ pre, ∃ v,
      (githubRequest token ("orgs/" ++ o ++ "/repos") upstream fuel).1 = .callbackOk v)
    (hbad1 : (githubRequest token ("orgs/" ++ bad ++ "/repos") upstream fuel).1 = .callbackErr e1)
    (hpre2 : ∀ o ∈ pre, ∃ v,
      (githubRequest token ("orgs/" ++ o ++ "/members") upstream fuel).1 = .callbackOk v)
    (hbad2 : (githubRequest token ("orgs/" ++ bad ++ "/members") upstream fuel).1 = .callbackErr e2)
    (hpre3 : ∀ o ∈ pre, ∃ v,
      (githubRequest token ("repos/" ++ o ++ "/milestones") upstream fuel).1 = .callbackOk v)
    (hbad3 : (githubRequest token ("repos/" ++ bad ++ "/milestones") upstream fuel).1 = .callbackErr e3)
    (hpre4 : ∀ o ∈ pre, ∃ v,
      (githubRequest token ("repos/" ++ o ++ "/labels") upstream fuel).1 = .callbackOk v)
    (hbad4 : (githubRequest token ("repos/" ++ bad ++ "/labels") upstream fuel).1 = .callbackErr e4) :
    (∃ vs, (getRepos token (pre ++ bad :: post) upstream fuel).1 =
      .called (some e1) (some (.arr vs))) ∧
    (getUsersForOrgs token (pre ++ bad :: post) upstream fuel).1 =
      .called (some e2) none ∧
    (getMilestonesForRepos token (pre ++ bad :: post) upstream fuel).1 =
      .called (some e3) none ∧
    (getLabelsForRepos token (pre ++ bad :: post) upstream fuel).1 =
      .called (some e4) none := by
  obtain ⟨a1, v1, h1⟩ := fanout_err token upstream fuel
    (fun o => "orgs/" ++ o ++ "/repos") pre post bad e1 hpre1 hbad1
  obtain ⟨a2, v2, h2⟩ := fanout_err token upstream fuel
    (fun o => "orgs/" ++ o ++ "/members") pre post bad e2 hpre2 hbad2
  obtain ⟨a3, v3, h3⟩ := fanout_err token upstream fuel
    (fun o => "repos/" ++ o ++ "/milestones") pre post bad e3 hpre3 hbad3
  obtain ⟨a4, v4, h4⟩ := fanout_err token upstream fuel
    (fun o => "repos/" ++ o ++ "/labels") pre post bad e4 hpre4 hbad4
  simp only [List.map_append, List.map_cons] at h1 h2 h3 h4
  refine ⟨⟨a1, ?_⟩, ?_, ?_, ?_⟩
  · simp [getRepos, h1]
  · simp [getUsersForOrgs, h2, dedupFinal]
  · simp [getMilestonesForRepos, h3, dedupFinal]
  · simp [getLabelsForRepos, h4, dedupFinal]

/-- Upstream used by the C8 witness: every page-0 request yields an error
payload. -/
def c8WUpstream : String → PageResult :=
  fun _ => .body (some (.obj [("message", .str "boom")]))

theorem fanout_fail_fast_witness :
    (githubRequest "t" "orgs/b/repos" c8WUpstream 1).1 =
      .callbackErr (.obj [("message", .str "boom")]) ∧
    (getUsersForOrgs "t" ["b"] c8WUpstream 1).1 =
      .called (some (.obj [("message", .str "boom")])) none ∧
    (getMilestonesForRepos "t" ["b"] c8WUpstream 1).1 =
      .called (some (.obj [("message", .str "boom")])) none ∧
    (getLabelsForRepos "t" ["b"] c8WUpstream 1).1 =
      .called (some (.obj [("message", .str "boom")])) none := by
  have H := fanout_fail_fast "t" c8WUpstream 1 [] [] "b"
    (.obj [("message", .str "boom")]) (.obj [("message", .str "boom")])
    (.obj [("message", .str "boom")]) (.obj [("message", .str "boom")])
    (by simp) rfl (by simp) rfl (by simp) rfl (by simp) rfl
  exact ⟨rfl, H.2.1, H.2.2.1, H.2.2.2⟩

/-- Upstream used by the C8 counterexample: one successful org with one page
of data, one failing org. -/
def c8Upstream : String → PageResult := fun s =>
  if s = ghPageBase "t" "orgs/a/repos" ++ "0" then .body (some (.arr [.num 1]))
  else if s = ghPageBase "t" "orgs/b/repos" ++ "0" then
    .body (some (.obj [("message", .str "boom")]))
  else .body (some (.arr []))

/-- C8 counterexample: with two orgs where the first fetch succeeds with one
repo and the second errors, getRepos invokes its callback with the error AND
the non-empty partial list as its second argument (`callback(err, results)`
on line 216 forwards the accumulation of async.concat), contradicting the
claim that no partial list is returned to the caller. -/
theorem fanout_partial_counterexample :
    (getRepos "t" ["a", "b"] c8Upstream 3).1 =
      .called (some (.obj [("message", .str "boom")])) (some (.arr [.num 1])) ∧
    Json.arr [.num 1] ≠ Json.arr [] := by
  exact ⟨rfl, by simp⟩

/-- Upstream used by the C4 counterexample. -/
def c4Upstream : String → PageResult := fun s =>
  if s = ghPageBase "t" "orgs/a/repos" ++ "0" then .body (some (.arr [.num 1]))
  else .body (some (.arr []))

/-- C4 counterexample: even with the response cache holding a value under the
very URL the paginated fetch requests, getRepos does not return the cached
value and does not avoid the upstream calls: it issues the page requests and
returns the upstream data. (In the embedding getRepos does not even take the
response cache as an input, because the source operation never touches it.) -/
theorem getRepos_bypasses_cache_counterexample :
    LruCache.get
      { maxEntries := 100, maxAge := 300000,
        entries := [{ key := ghPageBase "t" "orgs/a/repos" ++ "0",
                      value := .arr [.num 99], time := 0 }] }
      (ghPageBase "t" "orgs/a/repos" ++ "0") 0 = some (.arr [.num 99]) ∧
    getRepos "t" ["a"] c4Upstream 2 =
      (.called none (some (.arr [.num 1])),
       [.httpGet (ghPageBase "t" "orgs/a/repos" ++ "0"),
        .httpGet (ghPageBase "t" "orgs/a/repos" ++ "1")]) ∧
    Json.arr [.num 1] ≠ Json.arr [.num 99] := by
  refine ⟨rfl, rfl, by simp⟩

theorem fetchPages_events_http (upstream : String → PageResult)
    (base : String) : ∀ (fuel page : Nat) (coll : List Json),
    ∀ ev ∈ (fetchPages upstream base fuel page coll).2, ∃ u, ev = .httpGet u := by
  intro fuel
  induction fuel with
  | zero => intro page coll ev hev; simp [fetchPages] at hev
  | succ f ih =>
    intro page coll ev
    cases hup : upstream (base ++ toString page) with
    | transport e =>
      intro hev
      simp [fetchPages, hup] at hev
      exact ⟨_, hev⟩
    | body ob =>
      cases ob with
      | none =>
        intro hev
        simp [fetchPages, hup] at hev
        exact ⟨_, hev⟩
      | some data =>
        cases hlen : getLength data with
        | error e =>
          intro hev
          simp [fetchPages, hup, hlen] at hev
          exact ⟨_, hev⟩
        | ok lenp =>
          by_cases htr : truthy lenp
          · intro hev
            simp [fetchPages, hup, hlen, htr] at hev
            rcases hev with rfl | hev
            · exact ⟨_, rfl⟩
            · exact ih (page + 1) (coll ++ jsConcatElems data) ev hev
          · by_cases hc : 0 < coll.length
            · intro hev
              simp [fetchPages, hup, hlen, htr, hc] at hev
              exact ⟨_, hev⟩
            · cases hmsg : getField data "message" with
              | error e =>
                intro hev
                simp [fetchPages, hup, hlen, htr, hc, hmsg] at hev
                exact ⟨_, hev⟩
              | ok mp =>
                by_cases hm : truthy mp
                · intro hev
                  simp [fetchPages, hup, hlen, htr, hc, hmsg, hm] at hev
                  exact ⟨_, hev⟩
                · intro hev
                  simp [fetchPages, hup, hlen, htr, hc, hmsg, hm] at hev
                  exact ⟨_, hev⟩

theorem asyncConcatGo_events (P : Event → Prop) :
    ∀ (items : List (FetchOutcome × List Event)) (acc : List Json)
      (evs : List Event),
    (∀ e ∈ evs, P e) → (∀ x ∈ items, ∀ e ∈ x.2, P e) →
    ∀ e ∈ (asyncConcatGo acc evs items).2, P e := by
  intro items
  induction items with
  | nil =>
    intro acc evs hevs _ e he
    simp only [asyncConcatGo] at he
    exact hevs e he
  | cons x rest ih =>
    intro acc evs hevs hitems e he
    obtain ⟨o, xev⟩ := x
    have hx : ∀ e ∈ xev, P e := fun e he => hitems (o, xev) (by simp) e he
    have hboth : ∀ e ∈ evs ++ xev, P e := fun e he =>
      (List.mem_append.mp he).elim (hevs e) (hx e)
    cases o with
    | thrown => simp only [asyncConcatGo] at he; exact hboth e he
    | pending => simp only [asyncConcatGo] at he; exact hboth e he
    | callbackErr err => simp only [asyncConcatGo] at he; exact hboth e he
    | callbackOk v =>
      simp only [asyncConcatGo] at he
      exact ih (acc ++ jsConcatElems v) (evs ++ xev) hboth
        (fun y hy => hitems y (by simp [hy])) e he

/-- C4 amended: the single-resource reads built on githubJSON go through the
response cache — check first, return the cached value on a hit, and on a
miss fetch, populate the cache and return — but the four paginated fan-out
operations (getRepos, getUsersForOrgs, getMilestonesForRepos,
getLabelsForRepos) never consult the response cache: every event they
produce is an HTTP page request, never a cache read or write, so they always
fetch upstream. -/
theorem cache_usage (cache : LruCache) (upstream : String → HttpResult)
    (now : Nat) (fragment : String) :
    (∀ v, cache.get ("https://api.github.com" ++ fragment) now = some v →
      githubJSON cache upstream now fragment =
        ((none, some v), cache,
         [.cacheGet ("https://api.github.com" ++ fragment)])) ∧
    (∀ body, cache.get ("https://api.github.com" ++ fragment) now = none →
      upstream ("https://api.github.com" ++ fragment) = .ok body →
      githubJSON cache upstream now fragment =
        ((none, some body),
         cache.set ("https://api.github.com" ++ fragment) body now,
         [.cacheGet ("https://api.github.com" ++ fragment),
          .httpGet ("https://api.github.com" ++ fragment),
          .cacheSet ("https://api.github.com" ++ fragment)])) ∧
    ∀ (token : String) (orgs : List String) (pup : String → PageResult)
      (fuel : Nat),
      (∀ ev ∈ (getRepos token orgs pup fuel).2, ∃ u, ev = Event.httpGet u) ∧
      (∀ ev ∈ (getUsersForOrgs token orgs pup fuel).2, ∃ u, ev = Event.httpGet u) ∧
      (∀ ev ∈ (getMilestonesForRepos token orgs pup fuel).2, ∃ u, ev = Event.httpGet u) ∧
      (∀ ev ∈ (getLabelsForRepos token orgs pup fuel).2, ∃ u, ev = Event.httpGet u) := by
  refine ⟨?_, ?_, ?_⟩
  · intro v hv
    simp [githubJSON, hv]
  · intro body hmiss hup
    simp [githubJSON, hmiss, hup]
  · intro token orgs pup fuel
    have hitems : ∀ (qb : String → String),
        ∀ x ∈ orgs.map (fun o => githubRequest token (qb o) pup fuel),
        ∀ e ∈ x.2, ∃ u, e = Event.httpGet u := by
      intro qb x hx
      obtain ⟨o, ho, rfl⟩ := List.mem_map.mp hx
      exact fetchPages_events_http pup (ghPageBase token (qb o)) fuel 0 []
    exact ⟨asyncConcatGo_events _ _ [] [] (by simp)
        (hitems (fun o => "orgs/" ++ o ++ "/repos")),
      asyncConcatGo_events _ _ [] [] (by simp)
        (hitems (fun o => "orgs/" ++ o ++ "/members")),
      asyncConcatGo_events _ _ [] [] (by simp)
        (hitems (fun o => "repos/" ++ o ++ "/milestones")),
      asyncConcatGo_events _ _ [] [] (by simp)
        (hitems (fun o => "repos/" ++ o ++ "/labels"))⟩

theorem cache_usage_witness :
    LruCache.get
      { maxEntries := 100, maxAge := 300000,
        entries := [{ key := "https://api.github.com/ms", value := .num 5,
                      time := 0 }] }
      "https://api.github.com/ms" 0 = some (.num 5) ∧
    githubJSON
      { maxEntries := 100, maxAge := 300000,
        entries := [{ key := "https://api.github.com/ms", value := .num 5,
                      time := 0 }] }
      (fun _ => .err .null) 0 "/ms" =
      ((none, some (.num 5)),
       { maxEntries := 100, maxAge := 300000,
         entries := [{ key := "https://api.github.com/ms", value := .num 5,
                       time := 0 }] },
       [.cacheGet "https://api.github.com/ms"]) := by
  have H := cache_usage
    { maxEntries := 100, maxAge := 300000,
      entries := [{ key := "https://api.github.com/ms", value := .num 5,
                    time := 0 }] }
    (fun _ => .err .null) 0 "/ms"
  exact ⟨rfl, H.1 (.num 5) rfl⟩

/-- The state shared between the checkCache middleware and the cache primer
in src/server.js: `overrides` is the set of URLs marked for a one-shot
bypass (`checkCache.overrides`), and `extCache` the externally visible
write-through cache mapping route URLs to the JSON last written. Modelled
from the spec: the lib/cache collaborator required on line 24 is not under
src/; per the spec it is a plain key-value store from resource path to
arbitrary JSON value with last-write-wins semantics and no TTL enforced by
the reader. -/
structure AppState where
  overrides : List String
  extCache : List (String × Json)

/-- What the checkCache middleware decides for one request: fall through to
the route handler (`next()`) or answer from the cache (`res.json(data)`). -/
inductive CacheStep where
  | next
  | respond (v : Json)

/-- The `checkCache` middleware (src/server.js lines 212-226): when the
bypass flag for the request URL is set, delete the flag and fall through;
otherwise read the externally visible cache and respond with the cached
value when the read yields truthy data, falling through on an error or a
miss (`if (err || !data) next(err)`). -/
def checkCache (st : AppState) (url : String) : CacheStep × AppState :=
  if st.overrides.contains url then
    (.next, { st with overrides := st.overrides.filter (fun u => u ≠ url) })
  else
    match (st.extCache.find? (fun kv => kv.1 = url)).map (fun kv => kv.2) with
    | some v => if truthy (.val v) then (.respond v, st) else (.next, st)
    | none => (.next, st)

/-- `cache.write(url, JSON.parse(body))` as invoked on line 315; modelled
from the spec as a last-write-wins key-value store update. -/
def cacheWrite (st : AppState) (url : String) (v : Json) : AppState :=
  { st with extCache := (url, v) :: st.extCache.filter (fun kv => kv.1 ≠ url) }

/-- `checkCache.overrides[url] = true` (src/server.js line 310). -/
def setOverride (st : AppState) (url : String) : AppState :=
  { st with overrides := url :: st.overrides }

/-- One scheduled refresh by `updateResource` (src/server.js lines 309-317):
set the bypass flag, issue the self-request — whose handling runs the
checkCache middleware, consuming the flag, and recomputes the resource,
yielding `fresh` — then write the parsed response body into the externally
visible cache. Returns the middleware decision taken for the self-request
together with the resulting state. -/
def scheduledRefresh (st : AppState) (url : String) (fresh : Json) :
    CacheStep × AppState :=
  let st1 := setOverride st url
  let r := checkCache st1 url
  (r.1, cacheWrite r.2 url fresh)

/-- C9: the bypass flag is one-shot. The scheduled refresh request itself
falls through to recomputation (it does not read the externally visible
cache), and it consumes the flag: immediately after the refresh write no
flag for the path remains, and the very next read of that path consults the
cache again — responding with the freshly written value when it is truthy
(and merely falling through otherwise), with the state unchanged, so no
second refresh or bypass is triggered. -/
theorem scheduler_bypass_once (st : AppState) (url : String) (fresh : Json) :
    (scheduledRefresh st url fresh).1 = .next ∧
    (scheduledRefresh st url fresh).2.overrides.contains url = false ∧
    checkCache (scheduledRefresh st url fresh).2 url =
      ((if truthy (.val fresh) then CacheStep.respond fresh else .next),
       (scheduledRefresh st url fresh).2) := by
  refine ⟨?_, ?_, ?_⟩
  · simp [scheduledRefresh, checkCache, setOverride]
  · simp [scheduledRefresh, checkCache, setOverride, cacheWrite]
  · by_cases hc : truthy (.val fresh) = true
    · simp [scheduledRefresh, checkCache, setOverride, cacheWrite, hc]
    · simp [scheduledRefresh, checkCache, setOverride, cacheWrite, hc]
